import Mathlib

/-!
Verification of the AI-Powered-News-Dashboard article pipeline.

Shallow embedding of the Python sources under `backend/`:

* `backend/utils/cleaning.py` — `clean_html` / `clean_text` / `parse_datetime` /
  `validate_article`;
* `backend/scraper.py` — `get_article_links` / `scrape_article`;
* `backend/scrapers/multi_source_scraper.py` — `MultiSourceScraper.scrape`;
* `backend/db/mongo.py` — `upsert_articles`;
* `backend/scheduler/scheduler.py` — `job_scrape`;
* `backend/scheduler.py` — `run_with_error_handling`.

External libraries (HTTP, BeautifulSoup HTML parsing, `dateutil`, the Mongo
driver) are modelled as uninterpreted function parameters or as explicit data
(the already-extracted selector results, the parsed-date oracle, the stored
collection).  All machine-level state (the Mongo collection, the scheduler job
status) is passed explicitly.
-/

namespace NewsDash

/-! ## backend/utils/cleaning.py — character classes

`clean_text` uses the regexes `[^\x20-\x7E]+` (non printable ASCII) and `\s+`
(whitespace).  After the first substitution every character is printable
ASCII, so only the ASCII whitespace set is relevant for the following `\s+`
and `.strip()` steps; we model that ASCII set. -/

/-- Printable ASCII range `\x20`-`\x7E` of the regex in `clean_text`. -/
def isPrintableAscii (c : Char) : Bool :=
  0x20 ≤ c.toNat && c.toNat ≤ 0x7E

/-- ASCII whitespace, the characters matched by Python's `\s` (and stripped by
`str.strip()`) within the printable-ASCII plane: space, tab, newline, vertical
tab, form feed, carriage return. -/
def isPySpace (c : Char) : Bool :=
  c = ' ' || c = '\t' || c = '\n' || c.toNat = 11 || c.toNat = 12 || c = '\r'

/-- Run replacement for `re.sub(r'[^\x20-\x7E]+', ' ', text)`: every maximal
run of non-printable characters becomes a single space.  The boolean flag
records whether the previous character belonged to such a run. -/
def subNonPrintable : Bool → List Char → List Char
  | _, [] => []
  | true, c :: cs =>
    if isPrintableAscii c then c :: subNonPrintable false cs
    else subNonPrintable true cs
  | false, c :: cs =>
    if isPrintableAscii c then c :: subNonPrintable false cs
    else ' ' :: subNonPrintable true cs

/-- Run replacement for `re.sub(r'\s+', ' ', text)`: every maximal whitespace
run becomes a single space. -/
def subSpaces : Bool → List Char → List Char
  | _, [] => []
  | true, c :: cs =>
    if isPySpace c then subSpaces true cs
    else c :: subSpaces false cs
  | false, c :: cs =>
    if isPySpace c then ' ' :: subSpaces true cs
    else c :: subSpaces false cs

/-- Python `str.strip()`: drop leading and trailing whitespace. -/
def pyStrip (l : List Char) : List Char :=
  ((l.dropWhile isPySpace).reverse.dropWhile isPySpace).reverse

/-- `clean_text` from `backend/utils/cleaning.py`:
`if not text: return ""`, then substitute non-printable runs by a space,
collapse whitespace runs, and strip. -/
def clean_text (l : List Char) : List Char :=
  if l = [] then []
  else pyStrip (subSpaces false (subNonPrintable false l))

/-- The content-cleaning pipeline used by the multi-source scraper:
`content = clean_html(raw); content = clean_text(content)`.

`clean_html` delegates to BeautifulSoup (an external HTML parser) before
collapsing whitespace, so it is modelled as an uninterpreted function
`cleanHtml`; the claimed output invariants are established for every possible
behaviour of that stage. -/
def clean_pipeline (cleanHtml : List Char → List Char) (raw : List Char) : List Char :=
  clean_text (cleanHtml raw)

/-- Output predicate: no two adjacent whitespace characters, i.e. no
whitespace run of length two or more. -/
def noWsRun (l : List Char) : Prop :=
  l.Chain' (fun a b => ¬(isPySpace a = true ∧ isPySpace b = true))

/-! ## backend/utils/cleaning.py — validate_article -/

/-- The four dictionary fields read by `validate_article`.  A missing key
(`article.get(field)` returning `None`) is `none`. -/
structure PyArticleFields where
  title : Option String
  url : Option String
  content : Option String
  published_at : Option String
deriving DecidableEq, Repr

/-- Python truthiness of `article.get(field)`: `None` and the empty string are
falsy, every other string is truthy. -/
def truthyStr : Option String → Bool
  | none => false
  | some s => !s.isEmpty

/-- `validate_article` from `backend/utils/cleaning.py`: iterate over the
required fields and return `False` as soon as one is falsy. -/
def validate_article (a : PyArticleFields) : Bool :=
  [a.title, a.url, a.content, a.published_at].all truthyStr

/-- Python `str.strip()` on a `String` (ASCII whitespace set). -/
def pyStripStr (s : String) : String := String.mk (pyStrip s.data)

/-- Validator as worded by the spec (for comparison only): all four fields
present and non-empty after trimming. -/
def isValid_spec (a : PyArticleFields) : Bool :=
  [a.title, a.url, a.content, a.published_at].all fun o =>
    match o with
    | none => false
    | some s => !(pyStripStr s).isEmpty

/-! ## backend/utils/cleaning.py — parse_datetime

`parse_datetime` tries `datetime.strptime` on a fixed ordered list of five
format strings and returns `None` when all of them fail (every `ValueError` /
`TypeError` is caught).  We embed CPython's `_strptime` semantics for exactly
the directives used by those five formats:

* the compiled regex is case-insensitive (a literal `T` also matches `t`) and
  a whitespace character in the format matches a whitespace run `\s+`;
* `%Y` is exactly four digits; `%m`, `%d`, `%H`, `%M`, `%S` match a valid
  two-digit form first and fall back to one digit; `%a` / `%b` match
  three-letter English weekday / month abbreviations; `%z` matches
  `[+-]\d\d:?\d\d(:?\d\d(\.\d{1,6})?)?` or a literal uppercase `Z`; `%Z`
  matches a timezone name (the locale-independent core: `UTC` / `GMT`);
* the whole input must be consumed (`unconverted data remains` otherwise);
* the final `datetime(...)` constructor re-validates the fields (calendar day,
  `second <= 59`, timezone offset strictly within 24 hours) and its
  `ValueError` is likewise caught, failing that format.

In the five formats every numeric directive is followed by a non-digit
literal or by `%z`/end-of-input, so greedy matching without backtracking is
equivalent to the regex semantics. -/

/-- Result of a successful `datetime.strptime`: the fields of the Python
`datetime` object, with `gmtoff` the UTC offset in seconds when `%z` was
matched (`none` for a naive datetime). -/
structure PyDateTime where
  year : Nat
  month : Nat
  day : Nat
  hour : Nat
  minute : Nat
  second : Nat
  gmtoff : Option Int
deriving DecidableEq, Repr

/-- Intermediate `strptime` accumulator, with CPython's defaults
(year 1900, January 1, midnight, naive). -/
structure TmAcc where
  year : Nat := 1900
  month : Nat := 1
  day : Nat := 1
  hour : Nat := 0
  minute : Nat := 0
  second : Nat := 0
  gmtoff : Option Int := none
deriving DecidableEq, Repr

/-- Format directives occurring in the five format strings of
`parse_datetime`. -/
inductive Dir
  | lit (c : Char)
  | dirY | dirm | dird | dirH | dirM | dirS | dirz | dira | dirb | dirZ
deriving DecidableEq, Repr

def digitVal (c : Char) : Option Nat :=
  if '0' ≤ c && c ≤ '9' then some (c.toNat - 48) else none

/-- Two-digit-first numeric directive: the regexes for `%m`, `%d`, `%H`,
`%M`, `%S` list their two-digit alternatives before the single-digit
fallback, which is equivalent to: take two digits if their value is an
admissible two-digit form, else one digit if admissible. -/
def matchNum2 (validTwo validOne : Nat → Bool) : List Char → Option (Nat × List Char)
  | c1 :: c2 :: rest =>
    match digitVal c1, digitVal c2 with
    | some a, some b =>
      if validTwo (10 * a + b) then some (10 * a + b, rest)
      else if validOne a then some (a, c2 :: rest) else none
    | some a, none => if validOne a then some (a, c2 :: rest) else none
    | none, _ => none
  | [c1] =>
    match digitVal c1 with
    | some a => if validOne a then some (a, []) else none
    | none => none
  | [] => none

/-- `%Y`: exactly four digits (CPython regex `\d\d\d\d`). -/
def matchYear : List Char → Option (Nat × List Char)
  | c1 :: c2 :: c3 :: c4 :: rest =>
    match digitVal c1, digitVal c2, digitVal c3, digitVal c4 with
    | some a, some b, some c, some d => some (1000 * a + 100 * b + 10 * c + d, rest)
    | _, _, _, _ => none
  | _ => none

/-- Case-insensitive match of one name from `names` as a prefix of the input;
returns its index.  All names used (`mon`..`sun`, `jan`..`dec`, `utc`/`gmt`)
have length three and are pairwise distinct, so first-match order is
irrelevant. -/
def matchName (names : List String) (cs : List Char) : Option (Nat × List Char) :=
  let lows := (cs.take 3).map Char.toLower
  match names.findIdx? (fun n => n.data = lows) with
  | some i => if cs.length < 3 then none else some (i, cs.drop 3)
  | none => none

def weekdayAbbrs : List String := ["mon", "tue", "wed", "thu", "fri", "sat", "sun"]

def monthAbbrs : List String :=
  ["jan", "feb", "mar", "apr", "may", "jun", "jul", "aug", "sep", "oct", "nov", "dec"]

def tzNames : List String := ["utc", "gmt"]

/-- Consume `expected` digits groups for `%z` after the sign: `\d\d`. -/
def matchTwoDigits : List Char → Option (Nat × List Char)
  | c1 :: c2 :: rest =>
    match digitVal c1, digitVal c2 with
    | some a, some b => some (10 * a + b, rest)
    | _, _ => none
  | _ => none

/-- The optional `(:?\d\d(\.\d{1,6})?)?` seconds-and-fraction tail of `%z`.
Returns the seconds value (0 when absent) and the rest of the input. -/
def matchZSeconds (cs : List Char) : Nat × List Char :=
  let body := if cs.head? = some ':' then cs.drop 1 else cs
  match matchTwoDigits body with
  | none => (0, cs)
  | some (ss, rest) =>
    match rest with
    | '.' :: rest2 =>
      let frac := rest2.takeWhile (fun c => (digitVal c).isSome)
      if frac.length = 0 ∨ 6 < frac.length then (ss, rest)
      else (ss, rest2.drop frac.length)
    | _ => (ss, rest)

/-- `%z`: `[+-]\d\d:?\d\d(:?\d\d(\.\d{1,6})?)?` or a literal uppercase `Z`
(offset 0).  Returns the offset in seconds. -/
def matchZOffset : List Char → Option (Int × List Char)
  | 'Z' :: rest => some (0, rest)
  | sign :: rest =>
    if sign = '+' ∨ sign = '-' then
      match matchTwoDigits rest with
      | none => none
      | some (hh, r1) =>
        let r1' := if r1.head? = some ':' then r1.drop 1 else r1
        match matchTwoDigits r1' with
        | none => none
        | some (mm, r2) =>
          let (ss, r3) := matchZSeconds r2
          let total : Int := (hh * 3600 + mm * 60 + ss : Nat)
          some (if sign = '-' then -total else total, r3)
    else none
  | [] => none

/-- Interpret one directive against the input, updating the accumulator. -/
def runDirs : List Dir → List Char → TmAcc → Option TmAcc
  | [], [], tm => some tm
  | [], _ :: _, _ => none
  | dir :: rest, cs, tm =>
    match dir with
    | .lit c =>
      if isPySpace c then
        match cs with
        | c1 :: cs1 =>
          if isPySpace c1 then runDirs rest (cs1.dropWhile isPySpace) tm else none
        | [] => none
      else
        match cs with
        | c1 :: cs1 => if c1.toLower = c.toLower then runDirs rest cs1 tm else none
        | [] => none
    | .dirY =>
      match matchYear cs with
      | some (y, cs1) => runDirs rest cs1 { tm with year := y }
      | none => none
    | .dirm =>
      match matchNum2 (fun n => 1 ≤ n && n ≤ 12) (fun n => 1 ≤ n) cs with
      | some (v, cs1) => runDirs rest cs1 { tm with month := v }
      | none => none
    | .dird =>
      match matchNum2 (fun n => 1 ≤ n && n ≤ 31) (fun n => 1 ≤ n) cs with
      | some (v, cs1) => runDirs rest cs1 { tm with day := v }
      | none => none
    | .dirH =>
      match matchNum2 (fun n => n ≤ 23) (fun _ => true) cs with
      | some (v, cs1) => runDirs rest cs1 { tm with hour := v }
      | none => none
    | .dirM =>
      match matchNum2 (fun n => n ≤ 59) (fun _ => true) cs with
      | some (v, cs1) => runDirs rest cs1 { tm with minute := v }
      | none => none
    | .dirS =>
      match matchNum2 (fun n => n ≤ 61) (fun _ => true) cs with
      | some (v, cs1) => runDirs rest cs1 { tm with second := v }
      | none => none
    | .dirz =>
      match matchZOffset cs with
      | some (off, cs1) => runDirs rest cs1 { tm with gmtoff := some off }
      | none => none
    | .dira =>
      match matchName weekdayAbbrs cs with
      | some (_, cs1) => runDirs rest cs1 tm
      | none => none
    | .dirb =>
      match matchName monthAbbrs cs with
      | some (i, cs1) => runDirs rest cs1 { tm with month := i + 1 }
      | none => none
    | .dirZ =>
      match matchName tzNames cs with
      | some (_, cs1) => runDirs rest cs1 tm
      | none => none

def isLeapYear (y : Nat) : Bool :=
  y % 4 = 0 && (y % 100 ≠ 0 || y % 400 = 0)

def daysInMonth (y mo : Nat) : Nat :=
  if mo = 2 then (if isLeapYear y then 29 else 28)
  else if mo = 4 ∨ mo = 6 ∨ mo = 9 ∨ mo = 11 then 30
  else 31

/-- The `datetime(...)` constructor validation performed after the regex
match; a violation raises `ValueError`, which `parse_datetime` catches. -/
def datetimeCtor (tm : TmAcc) : Option PyDateTime :=
  if 1 ≤ tm.year && tm.year ≤ 9999 && 1 ≤ tm.month && tm.month ≤ 12
      && 1 ≤ tm.day && tm.day ≤ daysInMonth tm.year tm.month
      && tm.hour ≤ 23 && tm.minute ≤ 59 && tm.second ≤ 59
      && (match tm.gmtoff with
          | none => true
          | some off => off.natAbs < 86400) then
    some ⟨tm.year, tm.month, tm.day, tm.hour, tm.minute, tm.second, tm.gmtoff⟩
  else none

/-- `datetime.strptime(data, fmt)` for one format: full regex match, then the
constructor validation; any failure is a caught exception, i.e. `none`. -/
def strptime (fmt : List Dir) (cs : List Char) : Option PyDateTime :=
  match runDirs fmt cs {} with
  | some tm => datetimeCtor tm
  | none => none

/-- `"%Y-%m-%dT%H:%M:%S%z"`. -/
def fmtIsoTz : List Dir :=
  [.dirY, .lit '-', .dirm, .lit '-', .dird, .lit 'T',
   .dirH, .lit ':', .dirM, .lit ':', .dirS, .dirz]

/-- `"%Y-%m-%dT%H:%M:%S"`. -/
def fmtIso : List Dir :=
  [.dirY, .lit '-', .dirm, .lit '-', .dird, .lit 'T',
   .dirH, .lit ':', .dirM, .lit ':', .dirS]

/-- `"%Y-%m-%d %H:%M:%S"`. -/
def fmtSpace : List Dir :=
  [.dirY, .lit '-', .dirm, .lit '-', .dird, .lit ' ',
   .dirH, .lit ':', .dirM, .lit ':', .dirS]

/-- `"%a, %d %b %Y %H:%M:%S %Z"`. -/
def fmtRfc : List Dir :=
  [.dira, .lit ',', .lit ' ', .dird, .lit ' ', .dirb, .lit ' ', .dirY,
   .lit ' ', .dirH, .lit ':', .dirM, .lit ':', .dirS, .lit ' ', .dirZ]

/-- `"%Y-%m-%d"`. -/
def fmtDate : List Dir :=
  [.dirY, .lit '-', .dirm, .lit '-', .dird]

/-- The fixed ordered format list of `parse_datetime`. -/
def formats : List (List Dir) := [fmtIsoTz, fmtIso, fmtSpace, fmtRfc, fmtDate]

def tryFormats : List (List Dir) → List Char → Option PyDateTime
  | [], _ => none
  | f :: fs, cs =>
    match strptime f cs with
    | some dtv => some dtv
    | none => tryFormats fs cs

/-- `parse_datetime` from `backend/utils/cleaning.py`: `if not date_str:
return None`, then try the five formats in order, returning the first
success; every parse failure is caught, so the function never raises —
totality of this definition is the embedded form of that guarantee. -/
def parse_datetime (s : String) : Option PyDateTime :=
  if s.isEmpty then none else tryFormats formats s.data

/-! ## backend/scraper.py — get_article_links

`get_article_links(source, url)` fetches the listing page (`make_request`
returns `None` on any request exception), dispatches to a source-specific
extractor when one exists (else the generic one), retries the generic
extractor when the specific one found nothing and the source has a URL
pattern, deduplicates with `list(set(links))` and returns the first
`min(20, len)` entries.

The network fetch is modelled by its result (`none` = caught request
exception); the BeautifulSoup-based extractors are uninterpreted functions of
the fetched HTML.  `list(set(..))` enumerates a Python set in unspecified
order; it is modelled by `List.dedup`, and only order-independent
properties (emptiness, length, nodup) are claimed about the result. -/

/-- Extractor dispatch and generic retry of `get_article_links`: use the
source-specific extractor when one exists, else the generic one; when the
result is empty and the source has a URL pattern, retry generically. -/
def pickLinks (h : String) (specificExtractor : Option (String → List String))
    (genericExtractor fallbackExtractor : String → List String)
    (inUrlPatterns : Bool) : List String :=
  let links :=
    match specificExtractor with
    | some f => f h
    | none => genericExtractor h
  if links.isEmpty && inUrlPatterns then fallbackExtractor h else links

/-- `unique_links = list(set(links)); return unique_links[:min(20,
len(unique_links))]`. -/
def capLinks (links : List String) : List String :=
  (links.dedup).take (min 20 (links.dedup).length)

def get_article_links (html : Option String)
    (specificExtractor : Option (String → List String))
    (genericExtractor fallbackExtractor : String → List String)
    (inUrlPatterns : Bool) : List String :=
  match html with
  | none => []
  | some h =>
    if h = "" then []
    else capLinks
      (pickLinks h specificExtractor genericExtractor fallbackExtractor inUrlPatterns)

/-! ## backend/scraper.py — scrape_article

Both branches of `scrape_article` (the Reuters branch and the newspaper3k
branch) end with the same guard: `if not title or not text or len(text) <
100: return None`.  The Reuters branch builds the body as
`"\n".join(p.text.strip() for p in paragraphs if p.text.strip())`.
Title and paragraph texts are the selector outputs of the external HTML
parser, passed here as data; the enrichment fields (image, category,
keywords) are not involved in the claims and are omitted from the record. -/

structure ScrapedArticle where
  title : String
  text : String
  url : String
deriving DecidableEq, Repr

/-- Body assembly of the Reuters branch of `scrape_article`: strip each
paragraph, keep the non-empty ones, join with a newline. -/
def join_paragraphs (ps : List String) : String :=
  String.intercalate "\n" ((ps.map pyStripStr).filter (fun p => !p.isEmpty))

/-- `scrape_article` given the extracted title and paragraph texts. -/
def scrape_article (url title : String) (paragraphs : List String) : Option ScrapedArticle :=
  let text := join_paragraphs paragraphs
  if title = "" ∨ text = "" ∨ text.length < 100 then none
  else some ⟨title, text, url⟩

/-! ## backend/scrapers/multi_source_scraper.py — MultiSourceScraper.scrape

`scrape` iterates the configured per-source scraper functions; each call is
wrapped in `try/except Exception`, a failure is logged and contributes
nothing, a success extends the accumulated article list.  Each per-source
call is modelled by its outcome (`Except.error` = the exception that the
`except` block catches). -/

/-- One iteration of the `scrape` loop: extend the accumulator on success,
keep it unchanged on a caught exception. -/
def scrapeStep {α : Type} (acc : List α) (r : String × Except String (List α)) : List α :=
  match r.2 with
  | .ok batch => acc ++ batch
  | .error _ => acc

def multi_scrape {α : Type} (results : List (String × Except String (List α))) : List α :=
  results.foldl scrapeStep []

/-! ## backend/db/mongo.py — upsert_articles

The `articles` collection has a unique index on `url`; a collection is
modelled as a list of documents whose `url` projection has no duplicates.
`bulk_write` of `UpdateOne({"url": u}, {"$set": article}, upsert=True)`
operations applies them in order: if a document with that `url` exists the
first such document is replaced field-by-field (here: wholesale, since
`$set` sets every field of the article), else the article is inserted;
`upserted_count` counts the inserts.

The `dateutil.parser.parse` call is external and is modelled as an oracle
`parse : String → Option Int` (`none` = the exception caught by the
`except` around it). -/

inductive PubDate
  | missing
  | str (s : String)
  | dt (t : Int)
deriving DecidableEq, Repr

structure MongoDoc where
  url : String
  title : String
  content : String
  source : String
  published_at : PubDate
deriving DecidableEq, Repr

/-- The per-article preprocessing loop body of `upsert_articles`: a
`published_at` string that `dateutil` cannot parse skips the article
(`continue`), a missing/empty `url` skips the article, otherwise an
`UpdateOne` operation for the (date-normalized) article is emitted. -/
def prepOp (parse : String → Option Int) (article : MongoDoc) : Option MongoDoc :=
  match article.published_at with
  | PubDate.str ds =>
    match parse ds with
    | none => none
    | some t =>
      if article.url == "" then none
      else some { article with published_at := PubDate.dt t }
  | _ => if article.url == "" then none else some article

/-- Mongo `find_one({"url": u})` on the modelled collection. -/
def lookupDoc (s : List MongoDoc) (u : String) : Option MongoDoc :=
  s.find? (fun d => d.url == u)

def hasUrl (s : List MongoDoc) (u : String) : Bool :=
  s.any (fun d => d.url == u)

/-- Replace the first document whose `url` matches `a.url` by `a`. -/
def replaceFirst : List MongoDoc → MongoDoc → List MongoDoc
  | [], _ => []
  | d :: ds, a => if d.url == a.url then a :: ds else d :: replaceFirst ds a

/-- One `UpdateOne(filter={"url": a.url}, update={"$set": a}, upsert=True)`:
update in place when the url is present, else insert; the boolean reports
whether an insert (an "upsert") happened. -/
def applyOp (s : List MongoDoc) (a : MongoDoc) : List MongoDoc × Bool :=
  if hasUrl s a.url then (replaceFirst s a, false) else (s ++ [a], true)

/-- `bulk_write(operations)`: apply in order, count the inserts. -/
def applyOps : List MongoDoc → List MongoDoc → List MongoDoc × Nat
  | s, [] => (s, 0)
  | s, a :: ops =>
    let r := applyOp s a
    let r2 := applyOps r.1 ops
    (r2.1, (if r.2 then 1 else 0) + r2.2)

/-- `upsert_articles(article_list)` acting on an explicit collection state.
Returns the new collection, the `upserted_count` of the bulk result, and
whether `bulk_write` was invoked at all (the function returns early on an
empty input list and on an empty operation list). -/
def upsert_articles (parse : String → Option Int) (article_list : List MongoDoc)
    (store : List MongoDoc) : List MongoDoc × Nat × Bool :=
  if article_list.isEmpty then (store, 0, false)
  else
    let operations := article_list.filterMap (prepOp parse)
    if operations.isEmpty then (store, 0, false)
    else
      let r := applyOps store operations
      (r.1, r.2, true)

/-- The last operation in `ops` whose `url` is `u` — the binding a bulk
write leaves in the collection at that key. -/
def lastAssoc : List MongoDoc → String → Option MongoDoc
  | [], _ => none
  | a :: ops, u =>
    match lastAssoc ops u with
    | some b => some b
    | none => if a.url == u then some a else none

/-! ## backend/scheduler/scheduler.py — job_scrape

`job_scrape` runs `scraper.scrape()` + `upsert_articles` inside a
`for attempt in range(1, retries + 1)` loop with `retries = 3`; the body is
in `try/except Exception`, a success `break`s, a failure sleeps 10 seconds
when `attempt < retries` and otherwise logs "Max retries reached" and lets
the loop end.  Attempt outcomes are modelled by an oracle indexed by the
attempt number; the trace records the attempts made, whether one succeeded
and the sleeps performed.  The broad `except` means no exception can escape
the job, which is why the model is a total function into `RunResult`. -/

structure RunResult where
  attempts : Nat
  succeeded : Bool
  sleeps : List Nat
deriving DecidableEq, Repr

def job_scrape_go (outcomes : Nat → Except String Unit) :
    Nat → Nat → List Nat → RunResult
  | attempt, 0, sleeps => ⟨attempt - 1, false, sleeps⟩
  | attempt, remaining + 1, sleeps =>
    match outcomes attempt with
    | .ok _ => ⟨attempt, true, sleeps⟩
    | .error _ =>
      if remaining = 0 then ⟨attempt, false, sleeps⟩
      else job_scrape_go outcomes (attempt + 1) remaining (sleeps ++ [10])

/-- `job_scrape` with its fixed budget `retries = 3`. -/
def job_scrape (outcomes : Nat → Except String Unit) : RunResult :=
  job_scrape_go outcomes 1 3 []

/-! ## backend/scheduler.py — run_with_error_handling

The richer scheduler variant keeps a global `job_status` dict; we model the
fields it reads and writes, with timestamps as naturals.  `maxFail` is
`config["max_consecutive_failures"]`, `pauseDur` the pause duration
(`hours_to_pause_after_failures` as a time delta), `isFetchAll` whether the
job is `fetch_all_sources` (whose dict result feeds `articles_fetched`, the
`Except.ok` payload here).  The returned boolean records whether the job
body was executed (false = the early `return` during a pause). -/

structure JobStatus where
  last_run : Option Nat
  last_success : Option Nat
  consecutive_failures : Nat
  total_runs : Nat
  total_successes : Nat
  total_failures : Nat
  articles_fetched : Nat
  is_paused : Bool
  pause_until : Option Nat
deriving DecidableEq, Repr

/-- The body of `run_with_error_handling` after the pause check: count the
run, then branch on the job outcome; a success resets
`consecutive_failures`, a failure increments it and pauses when it reaches
`max_consecutive_failures`. -/
def proceed_run (maxFail pauseDur now : Nat) (isFetchAll : Bool)
    (res : Except String Nat) (st : JobStatus) : JobStatus :=
  let st1 := { st with last_run := some now, total_runs := st.total_runs + 1 }
  match res with
  | .ok fetched =>
    let st2 := { st1 with
      last_success := some now
      consecutive_failures := 0
      total_successes := st1.total_successes + 1 }
    if isFetchAll then { st2 with articles_fetched := st2.articles_fetched + fetched }
    else st2
  | .error _ =>
    let st2 := { st1 with
      consecutive_failures := st1.consecutive_failures + 1
      total_failures := st1.total_failures + 1 }
    if maxFail ≤ st2.consecutive_failures then
      { st2 with is_paused := true, pause_until := some (now + pauseDur) }
    else st2

/-- `run_with_error_handling(job_func)`: when `is_paused` and `pause_until`
are both set (truthy) and the current time is before `pause_until`, return
immediately without executing the job; once the timestamp has passed, clear
both flags and proceed; otherwise proceed directly. -/
def run_with_error_handling (maxFail pauseDur now : Nat) (isFetchAll : Bool)
    (res : Except String Nat) (st : JobStatus) : JobStatus × Bool :=
  match st.is_paused, st.pause_until with
  | true, some t =>
    if now < t then (st, false)
    else
      (proceed_run maxFail pauseDur now isFetchAll res
        { st with is_paused := false, pause_until := none }, true)
  | _, _ => (proceed_run maxFail pauseDur now isFetchAll res st, true)

/-! ## Sample data used by counterexamples and witnesses -/

/-- A record whose `title` is whitespace-only and whose other required
fields are populated. -/
def wsArticle : PyArticleFields :=
  ⟨some " ", some "https://example.com/a", some "body text", some "2024-01-15"⟩

/-- A fully populated record. -/
def fullArticle : PyArticleFields :=
  ⟨some "Storm Warning Issued", some "https://example.com/a", some "body text",
   some "2024-01-15"⟩

/-- All-letter body text of a given length. -/
def sampleBody (n : Nat) : String := String.mk (List.replicate n 'a')

/-! ## Claim C2 — validate_article -/

/-- Claim C2, counterexample: the claim says `isValid` is false for every
record in which one of the four required fields is whitespace-only after
trimming, but `validate_article` only tests Python truthiness and a
whitespace-only string is truthy: on `wsArticle` (title `" "`) the code
returns `True` while the spec's trimming predicate returns `False`. -/
theorem validate_article_trim_counterexample :
    validate_article wsArticle = true ∧ isValid_spec wsArticle = false := by
  decide

/-- Claim C2 (amended): `validate_article` is a pure predicate returning
`true` iff `title`, `url`, `content` and `published_at` are all present and
non-empty — without trimming, so a whitespace-only field counts as present;
absence of a field is a normal `false` result (the model is a total
function), not an exception. -/
theorem validate_article_iff (a : PyArticleFields) :
    validate_article a = true ↔
      (∃ s, a.title = some s ∧ s ≠ "") ∧ (∃ s, a.url = some s ∧ s ≠ "")
      ∧ (∃ s, a.content = some s ∧ s ≠ "") ∧ (∃ s, a.published_at = some s ∧ s ≠ "") := by
  rcases a with ⟨t, u, c, p⟩
  cases t <;> cases u <;> cases c <;> cases p <;>
    simp [validate_article, truthyStr, String.isEmpty_iff, Bool.eq_false_iff, ne_eq]

/-- Witness for C2's amended theorem on a concrete record. -/
theorem validate_article_iff_witness : validate_article fullArticle = true :=
  (validate_article_iff fullArticle).mpr
    ⟨⟨_, rfl, by decide⟩, ⟨_, rfl, by decide⟩, ⟨_, rfl, by decide⟩, ⟨_, rfl, by decide⟩⟩

/-! ## Claim C5 — parse_datetime -/

/-- Claim C5: `parse_datetime` never raises (it is a total function; every
`strptime` failure is a caught exception modelled as `none`), tries the
fixed ordered format list `formats`, returns `none` for the unparseable
`"not-a-date"` and for a falsy input, and returns a valid timestamp for
`"2024-01-15T10:30:00Z"` (matched by the ISO-8601-with-offset pattern, `Z`
giving UTC offset 0). -/
theorem parse_datetime_spec :
    parse_datetime "not-a-date" = none
    ∧ parse_datetime "2024-01-15T10:30:00Z" = some ⟨2024, 1, 15, 10, 30, 0, some 0⟩
    ∧ parse_datetime "" = none := by
  refine ⟨by decide, by decide, by decide⟩

/-! ## Claim C6 — scrape_article -/

/-- Claim C6: `scrape_article` returns `None` whenever the extracted title
is missing or the assembled body is missing or shorter than the fixed
100-character minimum, and returns the record with that exact title and the
paragraph concatenation otherwise. -/
theorem scrape_article_guard (url title : String) (ps : List String) :
    ((join_paragraphs ps).length < 100 → scrape_article url title ps = none)
    ∧ (title = "" → scrape_article url title ps = none)
    ∧ (title ≠ "" → 100 ≤ (join_paragraphs ps).length →
        scrape_article url title ps = some ⟨title, join_paragraphs ps, url⟩) := by
  refine ⟨fun h => ?_, fun h => ?_, fun h1 h2 => ?_⟩
  · simp only [scrape_article]
    rw [if_pos (Or.inr (Or.inr h))]
  · simp only [scrape_article]
    rw [if_pos (Or.inl h)]
  · have htext : join_paragraphs ps ≠ "" := by
      intro he
      rw [he] at h2
      simp at h2
    simp only [scrape_article]
    rw [if_neg (by push_neg; exact ⟨h1, htext, h2⟩)]

set_option maxRecDepth 4000 in
/-- Witness for C6: a page with a non-empty title and a 150-character body
yields the record; a 50-character body yields `None`. -/
theorem scrape_article_guard_witness :
    scrape_article "https://example.com/a" "Storm Warning Issued" [sampleBody 150]
      = some ⟨"Storm Warning Issued", join_paragraphs [sampleBody 150], "https://example.com/a"⟩
    ∧ scrape_article "https://example.com/b" "Title" [sampleBody 50] = none :=
  ⟨(scrape_article_guard _ _ _).2.2 (by decide) (by decide),
   (scrape_article_guard _ _ _).1 (by decide)⟩

/-! ## Claim C7 — MultiSourceScraper.scrape -/

theorem foldl_scrapeStep_acc {α : Type} (l : List (String × Except String (List α)))
    (acc : List α) : l.foldl scrapeStep acc = acc ++ l.foldl scrapeStep [] := by
  induction l generalizing acc with
  | nil => simp
  | cons r t ih =>
    cases h : r.2 with
    | ok batch =>
      simp only [List.foldl_cons, scrapeStep, h, List.nil_append]
      rw [ih (acc ++ batch), ih batch, List.append_assoc]
    | error e =>
      simp only [List.foldl_cons, scrapeStep, h, List.nil_append]
      exact ih acc

/-- Claim C7: the orchestrator's run over the source list processes sources
independently — it splits over concatenation, a successful source
contributes exactly its batch, and a source whose scraper raises is caught
at the per-source boundary and contributes zero records while all other
sources are still processed and included. -/
theorem multi_scrape_isolated (α : Type) :
    (∀ l1 l2 : List (String × Except String (List α)),
        multi_scrape (l1 ++ l2) = multi_scrape l1 ++ multi_scrape l2)
    ∧ (∀ (n : String) (b : List α), multi_scrape [(n, Except.ok b)] = b)
    ∧ (∀ (l1 l2 : List (String × Except String (List α))) (n e : String),
        multi_scrape (l1 ++ (n, Except.error e) :: l2) = multi_scrape (l1 ++ l2)) := by
  have happ : ∀ l1 l2 : List (String × Except String (List α)),
      multi_scrape (l1 ++ l2) = multi_scrape l1 ++ multi_scrape l2 := by
    intro l1 l2
    simp only [multi_scrape, List.foldl_append]
    rw [foldl_scrapeStep_acc l2 (List.foldl scrapeStep [] l1)]
  refine ⟨happ, fun n b => by simp [multi_scrape, scrapeStep], fun l1 l2 n e => ?_⟩
  have hcons : (n, Except.error (α := List α) e) :: l2 = [(n, Except.error e)] ++ l2 := rfl
  rw [hcons, happ l1 ([(n, Except.error e)] ++ l2), happ [(n, Except.error e)] l2,
    happ l1 l2]
  simp [multi_scrape, scrapeStep]

/-! ## Claim C3 — get_article_links -/

/-- Claim C3: `get_article_links` never throws (it is a total function — the
fetch failure is the caught request exception `none`): it returns the empty
list when the page is unreachable or the response is empty, its result is
always deduplicated and capped at 20 links, and when no extraction rule
matches (all extractors yield nothing) it returns the empty list. -/
theorem get_article_links_spec (specificExtractor : Option (String → List String))
    (genericExtractor fallbackExtractor : String → List String) (inUrlPatterns : Bool) :
    get_article_links none specificExtractor genericExtractor fallbackExtractor
        inUrlPatterns = []
    ∧ get_article_links (some "") specificExtractor genericExtractor fallbackExtractor
        inUrlPatterns = []
    ∧ (∀ html,
        (get_article_links html specificExtractor genericExtractor fallbackExtractor
            inUrlPatterns).length ≤ 20
        ∧ (get_article_links html specificExtractor genericExtractor fallbackExtractor
            inUrlPatterns).Nodup)
    ∧ (∀ h, (∀ f, specificExtractor = some f → f h = []) → genericExtractor h = [] →
        fallbackExtractor h = [] →
        get_article_links (some h) specificExtractor genericExtractor fallbackExtractor
          inUrlPatterns = []) := by
  have hlen : ∀ l : List String, (capLinks l).length ≤ 20 := by
    intro l
    rw [capLinks, List.length_take]
    omega
  have hnd : ∀ l : List String, (capLinks l).Nodup := fun l =>
    (List.nodup_dedup _).sublist (List.take_sublist _ _)
  refine ⟨rfl, by simp [get_article_links], fun html => ?_, fun h hs hg hf => ?_⟩
  · cases html with
    | none => simp [get_article_links]
    | some h =>
      by_cases hh : h = ""
      · subst hh
        simp [get_article_links]
      · simp only [get_article_links, if_neg hh]
        exact ⟨hlen _, hnd _⟩
  · by_cases hh : h = ""
    · subst hh
      simp [get_article_links]
    · have hpick : pickLinks h specificExtractor genericExtractor fallbackExtractor
          inUrlPatterns = [] := by
        cases specificExtractor with
        | none => simp [pickLinks, hg, hf]
        | some f => simp [pickLinks, hs f rfl, hf]
      simp [get_article_links, if_neg hh, hpick, capLinks]

/-- Witness for C3's no-rule-matches conjunct at concrete extractors. -/
theorem get_article_links_spec_witness :
    get_article_links (some "<html></html>") (some fun _ => []) (fun _ => [])
      (fun _ => []) true = [] :=
  (get_article_links_spec (some fun _ => []) (fun _ => []) (fun _ => []) true).2.2.2
    "<html></html>" (fun f hf => by injection hf with h1; rw [← h1]) rfl rfl

/-! ## Claim C4 — the cleaning pipeline -/

theorem subNonPrintable_printable (l : List Char) (b : Bool) :
    ∀ c ∈ subNonPrintable b l, isPrintableAscii c = true := by
  induction l generalizing b with
  | nil => cases b <;> simp [subNonPrintable]
  | cons d t ih =>
    intro c hc
    cases b with
    | false =>
      by_cases hd : isPrintableAscii d
      · rw [show subNonPrintable false (d :: t) = d :: subNonPrintable false t by
          simp [subNonPrintable, hd]] at hc
        rcases List.mem_cons.1 hc with rfl | h
        · exact hd
        · exact ih false c h
      · rw [show subNonPrintable false (d :: t) = ' ' :: subNonPrintable true t by
          simp [subNonPrintable, hd]] at hc
        rcases List.mem_cons.1 hc with rfl | h
        · decide
        · exact ih true c h
    | true =>
      by_cases hd : isPrintableAscii d
      · rw [show subNonPrintable true (d :: t) = d :: subNonPrintable false t by
          simp [subNonPrintable, hd]] at hc
        rcases List.mem_cons.1 hc with rfl | h
        · exact hd
        · exact ih false c h
      · rw [show subNonPrintable true (d :: t) = subNonPrintable true t by
          simp [subNonPrintable, hd]] at hc
        exact ih true c hc

theorem subSpaces_mem (l : List Char) (b : Bool) :
    ∀ c ∈ subSpaces b l, c = ' ' ∨ c ∈ l := by
  induction l generalizing b with
  | nil => cases b <;> simp [subSpaces]
  | cons d t ih =>
    intro c hc
    have lift : c ∈ subSpaces false t ∨ c ∈ subSpaces true t → c = ' ' ∨ c ∈ d :: t := by
      rintro (h | h)
      · rcases ih false c h with h' | h'
        · exact Or.inl h'
        · exact Or.inr (List.mem_cons_of_mem d h')
      · rcases ih true c h with h' | h'
        · exact Or.inl h'
        · exact Or.inr (List.mem_cons_of_mem d h')
    cases b with
    | false =>
      by_cases hd : isPySpace d
      · rw [show subSpaces false (d :: t) = ' ' :: subSpaces true t by
          simp [subSpaces, hd]] at hc
        rcases List.mem_cons.1 hc with rfl | h
        · exact Or.inl rfl
        · exact lift (Or.inr h)
      · rw [show subSpaces false (d :: t) = d :: subSpaces false t by
          simp [subSpaces, hd]] at hc
        rcases List.mem_cons.1 hc with rfl | h
        · exact Or.inr (List.mem_cons_self _ _)
        · exact lift (Or.inl h)
    | true =>
      by_cases hd : isPySpace d
      · rw [show subSpaces true (d :: t) = subSpaces true t by
          simp [subSpaces, hd]] at hc
        exact lift (Or.inr hc)
      · rw [show subSpaces true (d :: t) = d :: subSpaces false t by
          simp [subSpaces, hd]] at hc
        rcases List.mem_cons.1 hc with rfl | h
        · exact Or.inr (List.mem_cons_self _ _)
        · exact lift (Or.inl h)

/-- After a whitespace run was just collapsed, the next emitted character is
not whitespace. -/
theorem subSpaces_head_not (l : List Char) :
    ∀ c, (subSpaces true l).head? = some c → isPySpace c = false := by
  induction l with
  | nil => simp [subSpaces]
  | cons d t ih =>
    intro c hc
    by_cases hd : isPySpace d
    · rw [show subSpaces true (d :: t) = subSpaces true t by
        simp [subSpaces, hd]] at hc
      exact ih c hc
    · rw [show subSpaces true (d :: t) = d :: subSpaces false t by
        simp [subSpaces, hd]] at hc
      simp only [List.head?_cons, Option.some.injEq] at hc
      subst hc
      exact Bool.not_eq_true _ ▸ hd

theorem subSpaces_chain (l : List Char) (b : Bool) : noWsRun (subSpaces b l) := by
  induction l generalizing b with
  | nil => cases b <;> simp [subSpaces, noWsRun]
  | cons d t ih =>
    cases b
    · by_cases hd : isPySpace d
      · rw [show subSpaces false (d :: t) = ' ' :: subSpaces true t by
          simp [subSpaces, hd]]
        rw [noWsRun, List.chain'_cons']
        refine ⟨fun y hy => ?_, ih true⟩
        have : isPySpace y = false := subSpaces_head_not t y hy
        rintro ⟨-, h2⟩
        rw [this] at h2
        exact Bool.false_ne_true h2
      · rw [show subSpaces false (d :: t) = d :: subSpaces false t by
          simp [subSpaces, hd]]
        rw [noWsRun, List.chain'_cons']
        refine ⟨fun y hy => ?_, ih false⟩
        rintro ⟨h1, -⟩
        exact hd h1
    · by_cases hd : isPySpace d
      · rw [show subSpaces true (d :: t) = subSpaces true t by
          simp [subSpaces, hd]]
        exact ih true
      · rw [show subSpaces true (d :: t) = d :: subSpaces false t by
          simp [subSpaces, hd]]
        rw [noWsRun, List.chain'_cons']
        refine ⟨fun y hy => ?_, ih false⟩
        rintro ⟨h1, -⟩
        exact hd h1

/-- The first element surviving `dropWhile p` does not satisfy `p`. -/
theorem dropWhile_head_false (p : Char → Bool) (l : List Char) :
    ∀ c, ((l.dropWhile p).head? = some c) → p c = false := by
  induction l with
  | nil => simp
  | cons d t ih =>
    intro c hc
    by_cases hd : p d
    · rw [List.dropWhile_cons_of_pos hd] at hc
      exact ih c hc
    · rw [List.dropWhile_cons_of_neg hd] at hc
      simp only [List.head?_cons, Option.some.injEq] at hc
      subst hc
      exact Bool.not_eq_true _ ▸ hd

/-- `dropWhile` keeps the last element when its result is non-empty. -/
theorem dropWhile_getLast?_eq (p : Char → Bool) (l : List Char)
    (h : l.dropWhile p ≠ []) : (l.dropWhile p).getLast? = l.getLast? := by
  induction l with
  | nil => simp at h
  | cons d t ih =>
    by_cases hd : p d
    · rw [List.dropWhile_cons_of_pos hd] at h ⊢
      have ht : t ≠ [] := by
        rintro rfl
        simp at h
      rw [ih h]
      match t, ht with
      | e :: t', _ => simp [List.getLast?_cons_cons]
    · rw [List.dropWhile_cons_of_neg hd]

theorem pyStrip_segment (l : List Char) : List.IsInfix (pyStrip l) l := by
  obtain ⟨s1, hs1⟩ := List.dropWhile_suffix (l := l) isPySpace
  obtain ⟨t1, ht1⟩ :=
    List.dropWhile_suffix (l := (l.dropWhile isPySpace).reverse) isPySpace
  have hm : pyStrip l ++ t1.reverse = l.dropWhile isPySpace := by
    have h2 := congrArg List.reverse ht1
    simp only [List.reverse_append, List.reverse_reverse] at h2
    exact h2
  refine ⟨s1, t1.reverse, ?_⟩
  rw [List.append_assoc, hm, hs1]

theorem pyStrip_head (l : List Char) :
    ∀ c, (pyStrip l).head? = some c → isPySpace c = false := by
  intro c hc
  rw [pyStrip, List.head?_reverse] at hc
  by_cases hne : (l.dropWhile isPySpace).reverse.dropWhile isPySpace = []
  · rw [hne] at hc
    simp at hc
  · rw [dropWhile_getLast?_eq _ _ hne, List.getLast?_reverse] at hc
    exact dropWhile_head_false isPySpace l c hc

theorem pyStrip_getLast (l : List Char) :
    ∀ c, (pyStrip l).getLast? = some c → isPySpace c = false := by
  intro c hc
  rw [pyStrip, List.getLast?_reverse] at hc
  exact dropWhile_head_false isPySpace _ c hc

theorem clean_text_spec (l : List Char) :
    (∀ c ∈ clean_text l, isPrintableAscii c = true)
    ∧ noWsRun (clean_text l)
    ∧ (∀ c, (clean_text l).head? = some c → isPySpace c = false)
    ∧ (∀ c, (clean_text l).getLast? = some c → isPySpace c = false) := by
  by_cases hl : l = []
  · subst hl
    refine ⟨by simp [clean_text], by simp [clean_text, noWsRun], ?_, ?_⟩ <;>
      simp [clean_text]
  · have hct : clean_text l = pyStrip (subSpaces false (subNonPrintable false l)) := by
      rw [clean_text, if_neg hl]
    refine ⟨fun c hc => ?_, ?_, ?_, ?_⟩
    · rw [hct] at hc
      have hc2 : c ∈ subSpaces false (subNonPrintable false l) :=
        List.Sublist.subset (List.IsInfix.sublist (pyStrip_segment _)) hc
      rcases subSpaces_mem _ false c hc2 with rfl | hc3
      · decide
      · exact subNonPrintable_printable l false c hc3
    · rw [hct]
      exact List.Chain'.infix (subSpaces_chain _ false) (pyStrip_segment _)
    · rw [hct]
      exact pyStrip_head _
    · rw [hct]
      exact pyStrip_getLast _

/-- Claim C4: for every input and every behaviour of the HTML-stripping
stage, the output of the cleaning pipeline contains only printable ASCII
characters, contains no run of two or more consecutive whitespace
characters, and has no leading or trailing whitespace. -/
theorem clean_pipeline_spec (cleanHtml : List Char → List Char) (raw : List Char) :
    (∀ c ∈ clean_pipeline cleanHtml raw, isPrintableAscii c = true)
    ∧ noWsRun (clean_pipeline cleanHtml raw)
    ∧ (∀ c, (clean_pipeline cleanHtml raw).head? = some c → isPySpace c = false)
    ∧ (∀ c, (clean_pipeline cleanHtml raw).getLast? = some c → isPySpace c = false) :=
  clean_text_spec (cleanHtml raw)

/-- Witness for C4 at a concrete dirty input (tabs, control characters,
doubled blanks and surrounding whitespace): the pipeline output is the
cleaned text, whose head and last characters are non-whitespace. -/
theorem clean_pipeline_spec_witness :
    isPrintableAscii 'a' = true ∧ isPySpace 'a' = false ∧ isPySpace 'b' = false :=
  ⟨(clean_pipeline_spec id ("  a \t\x00 b  ".data)).1 'a' (by decide),
   (clean_pipeline_spec id ("  a \t\x00 b  ".data)).2.2.1 'a' (by decide),
   (clean_pipeline_spec id ("  a \t\x00 b  ".data)).2.2.2 'b' (by decide)⟩

/-- Witness for C7: a failing middle source contributes nothing while the
surrounding sources' batches are kept. -/
theorem multi_scrape_isolated_witness :
    multi_scrape [("A", Except.ok [1]), ("B", Except.error "down"),
        ("C", Except.ok [2, 3])]
      = multi_scrape [("A", Except.ok ([1] : List Nat)), ("C", Except.ok [2, 3])] :=
  (multi_scrape_isolated Nat).2.2 [("A", Except.ok [1])] [("C", Except.ok [2, 3])]
    "B" "down"

/-! ## Claim C8 — job_scrape retry loop -/

theorem job_scrape_go_attempts_le (o : Nat → Except String Unit) :
    ∀ (remaining attempt : Nat) (sleeps : List Nat),
      (job_scrape_go o attempt remaining sleeps).attempts ≤ attempt + remaining - 1 := by
  intro remaining
  induction remaining with
  | zero =>
    intro attempt sleeps
    simp only [job_scrape_go]
    omega
  | succ r ih =>
    intro attempt sleeps
    cases h : o attempt with
    | ok u =>
      simp only [job_scrape_go, h]
      omega
    | error e =>
      by_cases hr : r = 0
      · subst hr
        simp [job_scrape_go, h]
      · simp only [job_scrape_go, h, if_neg hr]
        exact le_trans (ih (attempt + 1) (sleeps ++ [10])) (by omega)

/-- Claim C8: when every attempt of a cycle fails, the cycle is retried up
to the fixed budget of 3 attempts, with a fixed 10-second sleep between
consecutive attempts (two sleeps for three attempts), after which the cycle
is abandoned (`succeeded = false`); no exception escapes the job (the model
is total into `RunResult` because the loop body catches every exception)
and no run ever makes more than 3 attempts. -/
theorem job_scrape_retry_budget (outcomes : Nat → Except String Unit)
    (h1 : ∃ e, outcomes 1 = Except.error e) (h2 : ∃ e, outcomes 2 = Except.error e)
    (h3 : ∃ e, outcomes 3 = Except.error e) :
    job_scrape outcomes = ⟨3, false, [10, 10]⟩
    ∧ (∀ o, (job_scrape o).attempts ≤ 3) := by
  obtain ⟨e1, h1⟩ := h1
  obtain ⟨e2, h2⟩ := h2
  obtain ⟨e3, h3⟩ := h3
  constructor
  · have s3 : job_scrape_go outcomes 3 1 [10, 10] = ⟨3, false, [10, 10]⟩ := by
      simp [job_scrape_go, h3]
    have s2 : job_scrape_go outcomes 2 2 [10] = ⟨3, false, [10, 10]⟩ := by
      simp only [job_scrape_go, h2, if_neg (by omega : ¬(1 : Nat) = 0)]
      exact s3
    have s1 : job_scrape_go outcomes 1 3 [] = ⟨3, false, [10, 10]⟩ := by
      simp only [job_scrape_go, h1, if_neg (by omega : ¬(2 : Nat) = 0)]
      exact s2
    exact s1
  · intro o
    have h := job_scrape_go_attempts_le o 3 1 []
    simpa [job_scrape] using h

/-- Witness for C8 with an always-failing scrape step. -/
theorem job_scrape_retry_budget_witness :
    job_scrape (fun _ => Except.error "boom") = ⟨3, false, [10, 10]⟩ :=
  (job_scrape_retry_budget (fun _ => Except.error "boom")
    ⟨_, rfl⟩ ⟨_, rfl⟩ ⟨_, rfl⟩).1

/-! ## Claim C9 — run_with_error_handling (rich scheduler) -/

theorem proceed_run_ok (maxFail pauseDur now : Nat) (isF : Bool) (n : Nat)
    (st : JobStatus) :
    (proceed_run maxFail pauseDur now isF (Except.ok n) st).consecutive_failures = 0
    ∧ (proceed_run maxFail pauseDur now isF (Except.ok n) st).is_paused = st.is_paused
    ∧ (proceed_run maxFail pauseDur now isF (Except.ok n) st).pause_until = st.pause_until
    ∧ (proceed_run maxFail pauseDur now isF (Except.ok n) st).total_runs
        = st.total_runs + 1 := by
  cases isF <;> simp [proceed_run]

theorem proceed_run_error (maxFail pauseDur now : Nat) (isF : Bool) (e : String)
    (st : JobStatus) :
    (proceed_run maxFail pauseDur now isF (Except.error e) st).consecutive_failures
      = st.consecutive_failures + 1
    ∧ (maxFail ≤ st.consecutive_failures + 1 →
        (proceed_run maxFail pauseDur now isF (Except.error e) st).is_paused = true
        ∧ (proceed_run maxFail pauseDur now isF (Except.error e) st).pause_until
            = some (now + pauseDur))
    ∧ (proceed_run maxFail pauseDur now isF (Except.error e) st).total_runs
        = st.total_runs + 1 := by
  by_cases hm : maxFail ≤ st.consecutive_failures + 1 <;> simp [proceed_run, hm]

/-- Claim C9: the rich scheduler tracks consecutive failures across cycles —
a timer fire during the pause window does not execute the job body and
returns immediately with the status unchanged; once the pause timestamp has
passed the job runs again and a success leaves the pause flags cleared;
every executed successful run resets the consecutive-failure counter to 0;
every executed failed run increments it, and when it reaches the configured
maximum the scheduler enters the paused state with the pause-until
timestamp `now + pauseDur`. -/
theorem run_with_error_handling_spec (maxFail pauseDur now : Nat) (isFetchAll : Bool)
    (res : Except String Nat) (st : JobStatus) :
    (∀ t, st.is_paused = true → st.pause_until = some t → now < t →
        run_with_error_handling maxFail pauseDur now isFetchAll res st = (st, false))
    ∧ (∀ t, st.is_paused = true → st.pause_until = some t → t ≤ now →
        (run_with_error_handling maxFail pauseDur now isFetchAll res st).2 = true
        ∧ (run_with_error_handling maxFail pauseDur now isFetchAll res st).1.total_runs
            = st.total_runs + 1
        ∧ (∀ n, res = Except.ok n →
            (run_with_error_handling maxFail pauseDur now isFetchAll res st).1.is_paused
              = false
            ∧ (run_with_error_handling maxFail pauseDur now isFetchAll res st).1.pause_until
              = none))
    ∧ ((run_with_error_handling maxFail pauseDur now isFetchAll res st).2 = true →
        ∀ n, res = Except.ok n →
        (run_with_error_handling maxFail pauseDur now isFetchAll
          res st).1.consecutive_failures = 0)
    ∧ ((run_with_error_handling maxFail pauseDur now isFetchAll res st).2 = true →
        ∀ e, res = Except.error e →
        (run_with_error_handling maxFail pauseDur now isFetchAll
            res st).1.consecutive_failures = st.consecutive_failures + 1
        ∧ (maxFail ≤ st.consecutive_failures + 1 →
            (run_with_error_handling maxFail pauseDur now isFetchAll res st).1.is_paused
              = true
            ∧ (run_with_error_handling maxFail pauseDur now isFetchAll
                res st).1.pause_until = some (now + pauseDur))) := by
  refine ⟨?_, ?_, ?_, ?_⟩
  · intro t hip hpu hlt
    simp [run_with_error_handling, hip, hpu, if_pos hlt]
  · intro t hip hpu hle
    have hnlt : ¬now < t := not_lt.2 hle
    simp only [run_with_error_handling, hip, hpu, if_neg hnlt]
    refine ⟨by trivial, ?_, ?_⟩
    · cases res with
      | ok n =>
        have h := (proceed_run_ok maxFail pauseDur now isFetchAll n
          { st with is_paused := false, pause_until := none }).2.2.2
        simpa using h
      | error e =>
        have h := (proceed_run_error maxFail pauseDur now isFetchAll e
          { st with is_paused := false, pause_until := none }).2.2
        simpa using h
    · intro n hres
      subst hres
      have h := proceed_run_ok maxFail pauseDur now isFetchAll n
        { st with is_paused := false, pause_until := none }
      exact ⟨by simpa using h.2.1, by simpa using h.2.2.1⟩
  · intro hexec n hres
    subst hres
    cases hip : st.is_paused with
    | false =>
      simp only [run_with_error_handling, hip]
      exact (proceed_run_ok maxFail pauseDur now isFetchAll n st).1
    | true =>
      cases hpu : st.pause_until with
      | none =>
        simp only [run_with_error_handling, hip, hpu]
        exact (proceed_run_ok maxFail pauseDur now isFetchAll n st).1
      | some t0 =>
        by_cases hnt : now < t0
        · rw [show run_with_error_handling maxFail pauseDur now isFetchAll
              (Except.ok n) st = (st, false) by
            simp [run_with_error_handling, hip, hpu, if_pos hnt]] at hexec
          simp at hexec
        · simp only [run_with_error_handling, hip, hpu, if_neg hnt]
          exact (proceed_run_ok maxFail pauseDur now isFetchAll n _).1
  · intro hexec e hres
    subst hres
    cases hip : st.is_paused with
    | false =>
      simp only [run_with_error_handling, hip]
      have h := proceed_run_error maxFail pauseDur now isFetchAll e st
      exact ⟨h.1, h.2.1⟩
    | true =>
      cases hpu : st.pause_until with
      | none =>
        simp only [run_with_error_handling, hip, hpu]
        have h := proceed_run_error maxFail pauseDur now isFetchAll e st
        exact ⟨h.1, h.2.1⟩
      | some t0 =>
        by_cases hnt : now < t0
        · rw [show run_with_error_handling maxFail pauseDur now isFetchAll
              (Except.error e) st = (st, false) by
            simp [run_with_error_handling, hip, hpu, if_pos hnt]] at hexec
          simp at hexec
        · simp only [run_with_error_handling, hip, hpu, if_neg hnt]
          have h := proceed_run_error maxFail pauseDur now isFetchAll e
            { st with is_paused := false, pause_until := none }
          refine ⟨by simpa using h.1, fun hth => ?_⟩
          exact h.2.1 (by simpa using hth)

/-- A status that is paused until time 100 after three consecutive
failures. -/
def pausedStatus : JobStatus := ⟨none, none, 3, 5, 2, 3, 0, true, some 100⟩

/-- Witness for C9: a timer fire at time 50 during the pause window does not
execute the job and leaves the status unchanged. -/
theorem run_with_error_handling_spec_witness :
    run_with_error_handling 3 3600 50 false (Except.error "x") pausedStatus
      = (pausedStatus, false) :=
  (run_with_error_handling_spec 3 3600 50 false (Except.error "x") pausedStatus).1
    100 rfl rfl (by decide)

/-! ## Claims C1 and C10 — upsert_articles

Supporting lemmas about the modelled collection: `replaceFirst` preserves the
`url` projection, `lookupDoc` after a bulk write is the last written binding,
an all-updates bulk write inserts nothing and preserves the url list, and two
stores with equal nodup url lists and equal lookups are equal. -/

theorem replaceFirst_map_url (s : List MongoDoc) (a : MongoDoc) :
    (replaceFirst s a).map MongoDoc.url = s.map MongoDoc.url := by
  induction s with
  | nil => rfl
  | cons d ds ih =>
    by_cases hd : (d.url == a.url) = true
    · simp only [replaceFirst, if_pos hd, List.map_cons]
      rw [eq_of_beq hd]
    · simp only [replaceFirst, if_neg hd, List.map_cons]
      rw [ih]

theorem lookupDoc_eq_none (s : List MongoDoc) (u : String)
    (h : u ∉ s.map MongoDoc.url) : lookupDoc s u = none := by
  rw [lookupDoc, List.find?_eq_none]
  intro x hx hpx
  exact h (List.mem_map.2 ⟨x, hx, eq_of_beq hpx⟩)

theorem lookup_isSome_iff_hasUrl (s : List MongoDoc) (u : String) :
    (lookupDoc s u).isSome = hasUrl s u := by
  rw [lookupDoc, hasUrl]
  by_cases h : s.any (fun d => d.url == u) = true
  · obtain ⟨x, hx, hpx⟩ := List.any_eq_true.1 h
    have h2 : (s.find? (fun d => d.url == u)).isSome = true :=
      List.find?_isSome.2 ⟨x, hx, hpx⟩
    rw [h2, h]
  · have h2 : s.find? (fun d => d.url == u) = none :=
      List.find?_eq_none.2 (fun x hx hpx => h (List.any_eq_true.2 ⟨x, hx, hpx⟩))
    have h3 : s.any (fun d => d.url == u) = false := by simpa using h
    rw [h2, h3]
    rfl

theorem hasUrl_iff_mem (s : List MongoDoc) (u : String) :
    hasUrl s u = true ↔ u ∈ s.map MongoDoc.url := by
  rw [hasUrl, List.any_eq_true]
  constructor
  · rintro ⟨d, hd, hp⟩
    exact List.mem_map.2 ⟨d, hd, eq_of_beq hp⟩
  · intro h
    obtain ⟨d, hd, he⟩ := List.mem_map.1 h
    exact ⟨d, hd, by simp [he]⟩

theorem hasUrl_eq_of_map_url {s t : List MongoDoc}
    (h : s.map MongoDoc.url = t.map MongoDoc.url) (u : String) :
    hasUrl s u = hasUrl t u := by
  have h1 := hasUrl_iff_mem s u
  have h2 := hasUrl_iff_mem t u
  rw [h] at h1
  cases hs : hasUrl s u <;> cases ht : hasUrl t u
  · rfl
  · exact absurd (h1.2 (h2.1 ht)) (by simp [hs])
  · exact absurd (h2.2 (h1.1 hs)) (by simp [ht])
  · rfl

theorem lookupDoc_cons (d : MongoDoc) (ds : List MongoDoc) (u : String) :
    lookupDoc (d :: ds) u
      = if (d.url == u) = true then some d else lookupDoc ds u := by
  rw [lookupDoc, List.find?_cons]
  cases hd : (d.url == u) <;> simp [hd, lookupDoc]

theorem lookup_replaceFirst_self (s : List MongoDoc) (a : MongoDoc)
    (h : hasUrl s a.url = true) : lookupDoc (replaceFirst s a) a.url = some a := by
  induction s with
  | nil => simp [hasUrl] at h
  | cons d ds ih =>
    by_cases hd : (d.url == a.url) = true
    · rw [show replaceFirst (d :: ds) a = a :: ds from by simp [replaceFirst, hd]]
      rw [lookupDoc_cons]
      simp
    · rw [show replaceFirst (d :: ds) a = d :: replaceFirst ds a from by
        simp [replaceFirst, hd]]
      rw [lookupDoc_cons, if_neg hd]
      apply ih
      rw [hasUrl, List.any_cons] at h
      rcases (Bool.or_eq_true _ _).mp h with h1 | h1
      · exact absurd h1 hd
      · rw [hasUrl]
        exact h1

theorem lookup_replaceFirst_ne (s : List MongoDoc) (a : MongoDoc) (u : String)
    (h : u ≠ a.url) : lookupDoc (replaceFirst s a) u = lookupDoc s u := by
  induction s with
  | nil => rfl
  | cons d ds ih =>
    by_cases hd : (d.url == a.url) = true
    · rw [show replaceFirst (d :: ds) a = a :: ds from by simp [replaceFirst, hd]]
      rw [lookupDoc_cons, lookupDoc_cons]
      have e1 : (a.url == u) = false := by simpa using Ne.symm h
      have e2 : (d.url == u) = false := by
        rw [eq_of_beq hd]
        exact e1
      simp [e1, e2]
    · rw [show replaceFirst (d :: ds) a = d :: replaceFirst ds a from by
        simp [replaceFirst, hd]]
      rw [lookupDoc_cons, lookupDoc_cons, ih]

theorem lookup_applyOp (s : List MongoDoc) (a : MongoDoc) (u : String) :
    lookupDoc (applyOp s a).1 u = if u = a.url then some a else lookupDoc s u := by
  rw [applyOp]
  by_cases h : hasUrl s a.url = true
  · rw [if_pos h]
    show lookupDoc (replaceFirst s a) u = _
    by_cases hu : u = a.url
    · subst hu
      rw [if_pos rfl]
      exact lookup_replaceFirst_self s a h
    · rw [if_neg hu]
      exact lookup_replaceFirst_ne s a u hu
  · rw [if_neg h]
    show lookupDoc (s ++ [a]) u = _
    have h' : hasUrl s a.url = false := by simpa using h
    by_cases hu : u = a.url
    · subst hu
      have hnone : lookupDoc s a.url = none :=
        lookupDoc_eq_none s a.url (fun hm => by
          rw [(hasUrl_iff_mem s a.url).2 hm] at h'
          cases h')
      rw [lookupDoc] at hnone
      rw [if_pos rfl, lookupDoc, List.find?_append, hnone, Option.none_or,
        List.find?_cons]
      simp
    · rw [if_neg hu]
      have hone : List.find? (fun d => d.url == u) [a] = none := by
        have h2 : lookupDoc [a] u = none := by
          rw [lookupDoc_cons, if_neg (by simpa using Ne.symm hu)]
          rfl
        simpa [lookupDoc] using h2
      rw [lookupDoc, List.find?_append, hone, lookupDoc]
      simp

theorem lookup_applyOps (ops : List MongoDoc) : ∀ (s : List MongoDoc) (u : String),
    lookupDoc (applyOps s ops).1 u
      = match lastAssoc ops u with
        | some b => some b
        | none => lookupDoc s u := by
  induction ops with
  | nil =>
    intro s u
    simp [applyOps, lastAssoc]
  | cons a rest ih =>
    intro s u
    have h1 : (applyOps s (a :: rest)).1 = (applyOps (applyOp s a).1 rest).1 := by
      simp [applyOps]
    rw [h1, ih]
    cases hre : lastAssoc rest u with
    | some b =>
      have hla : lastAssoc (a :: rest) u = some b := by simp [lastAssoc, hre]
      rw [hla]
    | none =>
      have hla : lastAssoc (a :: rest) u
          = if (a.url == u) = true then some a else none := by
        simp [lastAssoc, hre]
      rw [hla, lookup_applyOp]
      by_cases hu : u = a.url
      · subst hu
        simp
      · have hne : (a.url == u) = false := by
          simpa using Ne.symm hu
        simp [hu, hne]

theorem lastAssoc_isSome_of_mem (ops : List MongoDoc) (a : MongoDoc) (h : a ∈ ops) :
    (lastAssoc ops a.url).isSome = true := by
  induction ops with
  | nil => simp at h
  | cons b rest ih =>
    rcases List.mem_cons.1 h with rfl | h2
    · cases hre : lastAssoc rest a.url with
      | some c => simp [lastAssoc, hre]
      | none => simp [lastAssoc, hre]
    · cases hre : lastAssoc rest a.url with
      | some c => simp [lastAssoc, hre]
      | none =>
        have h3 := ih h2
        rw [hre] at h3
        simp at h3

theorem applyOps_all_present (ops : List MongoDoc) : ∀ s : List MongoDoc,
    (∀ a ∈ ops, hasUrl s a.url = true) →
    (applyOps s ops).1.map MongoDoc.url = s.map MongoDoc.url
    ∧ (applyOps s ops).2 = 0 := by
  induction ops with
  | nil =>
    intro s _
    simp [applyOps]
  | cons a rest ih =>
    intro s h
    have ha : hasUrl s a.url = true := h a (List.mem_cons_self _ _)
    have h1 : applyOp s a = (replaceFirst s a, false) := by rw [applyOp, if_pos ha]
    have hmap : (replaceFirst s a).map MongoDoc.url = s.map MongoDoc.url :=
      replaceFirst_map_url s a
    have hrest : ∀ b ∈ rest, hasUrl (replaceFirst s a) b.url = true := by
      intro b hb
      rw [hasUrl_eq_of_map_url hmap]
      exact h b (List.mem_cons_of_mem _ hb)
    obtain ⟨ih1, ih2⟩ := ih (replaceFirst s a) hrest
    constructor
    · have h2 : (applyOps s (a :: rest)).1 = (applyOps (replaceFirst s a) rest).1 := by
        simp [applyOps, h1]
      rw [h2, ih1, hmap]
    · have h2 : (applyOps s (a :: rest)).2 = (applyOps (replaceFirst s a) rest).2 := by
        simp [applyOps, h1]
      rw [h2, ih2]

theorem applyOps_nodup (ops : List MongoDoc) : ∀ s : List MongoDoc,
    (s.map MongoDoc.url).Nodup → ((applyOps s ops).1.map MongoDoc.url).Nodup := by
  induction ops with
  | nil =>
    intro s h
    simpa [applyOps] using h
  | cons a rest ih =>
    intro s h
    have h1 : (applyOps s (a :: rest)).1 = (applyOps (applyOp s a).1 rest).1 := by
      simp [applyOps]
    rw [h1]
    apply ih
    by_cases ha : hasUrl s a.url = true
    · rw [show (applyOp s a).1 = replaceFirst s a from by rw [applyOp, if_pos ha]]
      rwa [replaceFirst_map_url]
    · have ha' : hasUrl s a.url = false := by simpa using ha
      rw [show (applyOp s a).1 = s ++ [a] from by rw [applyOp, if_neg ha]]
      have hnm : a.url ∉ s.map MongoDoc.url := fun hm => by
        rw [(hasUrl_iff_mem s a.url).2 hm] at ha'
        cases ha'
      simp [List.nodup_append, h, hnm]

theorem store_ext (s : List MongoDoc) : ∀ t : List MongoDoc,
    s.map MongoDoc.url = t.map MongoDoc.url → (s.map MongoDoc.url).Nodup →
    (∀ u, lookupDoc s u = lookupDoc t u) → s = t := by
  induction s with
  | nil =>
    intro t hm _ _
    cases t with
    | nil => rfl
    | cons b t' => simp at hm
  | cons a s' ih =>
    intro t hm hnd hl
    cases t with
    | nil => simp at hm
    | cons b t' =>
      simp only [List.map_cons] at hm
      injection hm with hab hm'
      have hab2 : a = b := by
        have h1 := hl a.url
        rw [lookupDoc_cons, lookupDoc_cons] at h1
        have e1 : (a.url == a.url) = true := by simp
        have e2 : (b.url == a.url) = true := by simp [← hab]
        simp only [e1, if_pos] at h1
        simp only [e2, if_pos] at h1
        exact Option.some.inj h1
      subst hab2
      have hnda : a.url ∉ s'.map MongoDoc.url := by
        simp only [List.map_cons, List.nodup_cons] at hnd
        exact hnd.1
      have hnd' : (s'.map MongoDoc.url).Nodup := by
        simp only [List.map_cons, List.nodup_cons] at hnd
        exact hnd.2
      congr 1
      apply ih t' hm' hnd'
      intro u
      by_cases hu : u = a.url
      · subst hu
        have hndb : a.url ∉ t'.map MongoDoc.url := by
          rw [← hm']
          exact hnda
        rw [lookupDoc_eq_none _ _ hnda, lookupDoc_eq_none _ _ hndb]
      · have h1 := hl u
        rw [lookupDoc_cons, lookupDoc_cons] at h1
        have e : (a.url == u) = false := by simpa using Ne.symm hu
        simp only [e] at h1
        simpa using h1

/-- Replaying a bulk write on its own result store inserts nothing and
leaves the store unchanged. -/
theorem applyOps_twice (ops s0 : List MongoDoc)
    (hnd : (s0.map MongoDoc.url).Nodup) :
    (applyOps (applyOps s0 ops).1 ops).2 = 0
    ∧ (applyOps (applyOps s0 ops).1 ops).1 = (applyOps s0 ops).1 := by
  have hmem : ∀ a ∈ ops, hasUrl (applyOps s0 ops).1 a.url = true := by
    intro a ha
    rw [← lookup_isSome_iff_hasUrl, lookup_applyOps]
    cases hla : lastAssoc ops a.url with
    | none =>
      have h2 := lastAssoc_isSome_of_mem ops a ha
      rw [hla] at h2
      simp at h2
    | some b => simp
  obtain ⟨hmap, hcount⟩ := applyOps_all_present ops (applyOps s0 ops).1 hmem
  refine ⟨hcount, ?_⟩
  have hnd1 := applyOps_nodup ops s0 hnd
  apply store_ext _ _ hmap (by rw [hmap]; exact hnd1)
  intro u
  rw [lookup_applyOps, lookup_applyOps]
  cases hla : lastAssoc ops u with
  | some b => simp [hla]
  | none => simp [hla]

/-- The early return on an empty input list. -/
theorem upsert_eq_of_empty (parse : String → Option Int) (l s : List MongoDoc)
    (hl : l.isEmpty = true) : upsert_articles parse l s = (s, 0, false) := by
  simp only [upsert_articles, if_pos hl]

/-- The early return when every article was skipped. -/
theorem upsert_eq_of_ops_empty (parse : String → Option Int) (l s : List MongoDoc)
    (hl : ¬l.isEmpty = true) (hoe : (l.filterMap (prepOp parse)).isEmpty = true) :
    upsert_articles parse l s = (s, 0, false) := by
  simp only [upsert_articles, if_neg hl, if_pos hoe]

/-- The bulk-write branch. -/
theorem upsert_eq_of_ops_nonempty (parse : String → Option Int) (l s : List MongoDoc)
    (hl : ¬l.isEmpty = true) (hoe : ¬(l.filterMap (prepOp parse)).isEmpty = true) :
    upsert_articles parse l s
      = ((applyOps s (l.filterMap (prepOp parse))).1,
         (applyOps s (l.filterMap (prepOp parse))).2, true) := by
  simp only [upsert_articles, if_neg hl, if_neg hoe]

/-- Claim C1: with a url-unique initial collection, re-running
`upsert_articles` with the identical record list inserts no new document
(`upserted_count = 0` on the second run) and leaves the stored documents
unchanged — a second observation of a url updates the existing document in
place, so the document count does not grow on re-upsert. -/
theorem upsert_articles_idempotent (parse : String → Option Int)
    (l s0 : List MongoDoc) (hnd : (s0.map MongoDoc.url).Nodup) :
    (upsert_articles parse l (upsert_articles parse l s0).1).2.1 = 0
    ∧ (upsert_articles parse l (upsert_articles parse l s0).1).1
        = (upsert_articles parse l s0).1 := by
  by_cases hl : l.isEmpty = true
  · rw [upsert_eq_of_empty parse l s0 hl, upsert_eq_of_empty parse l _ hl]
    exact ⟨rfl, rfl⟩
  · by_cases hoe : (l.filterMap (prepOp parse)).isEmpty = true
    · rw [upsert_eq_of_ops_empty parse l s0 hl hoe,
        upsert_eq_of_ops_empty parse l _ hl hoe]
      exact ⟨rfl, rfl⟩
    · obtain ⟨hz, he⟩ := applyOps_twice (l.filterMap (prepOp parse)) s0 hnd
      rw [upsert_eq_of_ops_nonempty parse l s0 hl hoe,
        upsert_eq_of_ops_nonempty parse l _ hl hoe]
      exact ⟨hz, he⟩

def exParse : String → Option Int := fun _ => some 0

def exDoc : MongoDoc :=
  ⟨"https://example.com/a", "Storm Warning Issued", "body", "Reuters",
   PubDate.str "2024-01-15"⟩

/-- Witness for C1: upserting one record twice into the empty collection. -/
theorem upsert_articles_idempotent_witness :
    (upsert_articles exParse [exDoc] (upsert_articles exParse [exDoc] []).1).2.1 = 0
    ∧ (upsert_articles exParse [exDoc] (upsert_articles exParse [exDoc] []).1).1
        = (upsert_articles exParse [exDoc] []).1 :=
  upsert_articles_idempotent exParse [exDoc] [] (by simp)

/-- Claim C10: in `upsert_articles`, an article whose `published_at` string
the date parser rejects, or whose `url` is missing/empty, is silently
skipped — it generates no write operation (and no exception: `prepOp` is a
total function) while the surrounding articles in the batch are still
upserted; and when every article of the batch is skipped the function
returns without writing (store unchanged, no `bulk_write` call). -/
theorem upsert_articles_skips (parse : String → Option Int) :
    (∀ a : MongoDoc, (a.url = "" → prepOp parse a = none)
      ∧ (∀ ds, a.published_at = PubDate.str ds → parse ds = none →
          prepOp parse a = none))
    ∧ (∀ (a : MongoDoc) (l1 l2 s : List MongoDoc), prepOp parse a = none →
        upsert_articles parse (l1 ++ a :: l2) s = upsert_articles parse (l1 ++ l2) s)
    ∧ (∀ (l s : List MongoDoc), (∀ x ∈ l, prepOp parse x = none) →
        upsert_articles parse l s = (s, 0, false)) := by
  refine ⟨?_, ?_, ?_⟩
  · intro a
    constructor
    · intro hu
      cases hpa : a.published_at with
      | str ds => cases hp : parse ds <;> simp [prepOp, hpa, hp, hu]
      | missing => simp [prepOp, hpa, hu]
      | dt t => simp [prepOp, hpa, hu]
    · intro ds hpa hp
      simp [prepOp, hpa, hp]
  · intro a l1 l2 s ha
    have hops : (l1 ++ a :: l2).filterMap (prepOp parse)
        = (l1 ++ l2).filterMap (prepOp parse) := by
      simp [List.filterMap_append, List.filterMap_cons, ha]
    by_cases h12 : (l1 ++ l2).isEmpty = true
    · have h0 : l1 = [] ∧ l2 = [] := by
        rw [List.isEmpty_iff, List.append_eq_nil] at h12
        exact h12
      obtain ⟨rfl, rfl⟩ := h0
      rw [List.nil_append, List.nil_append]
      rw [upsert_eq_of_ops_empty parse [a] s (by simp)
        (by simp [List.filterMap_cons, ha])]
      rw [upsert_eq_of_empty parse [] s rfl]
    · have hne : ¬(l1 ++ a :: l2).isEmpty = true := by
        simp [List.isEmpty_iff]
      by_cases hoe2 : ((l1 ++ l2).filterMap (prepOp parse)).isEmpty = true
      · rw [upsert_eq_of_ops_empty parse _ s hne (by rw [hops]; exact hoe2),
          upsert_eq_of_ops_empty parse _ s h12 hoe2]
      · rw [upsert_eq_of_ops_nonempty parse _ s hne (by rw [hops]; exact hoe2),
          upsert_eq_of_ops_nonempty parse _ s h12 hoe2, hops]
  · intro l s hall
    have hops : l.filterMap (prepOp parse) = [] := List.filterMap_eq_nil_iff.2 hall
    by_cases hl : l.isEmpty = true
    · exact upsert_eq_of_empty parse l s hl
    · exact upsert_eq_of_ops_empty parse l s hl (by rw [hops]; rfl)

def badDoc : MongoDoc := ⟨"", "Title", "body", "Reuters", PubDate.missing⟩

/-- Witness for C10: a batch consisting of one url-less article writes
nothing. -/
theorem upsert_articles_skips_witness :
    upsert_articles exParse [badDoc] [] = ([], 0, false) :=
  (upsert_articles_skips exParse).2.2 [badDoc] [] (by decide)

end NewsDash
